import Mathlib

/-
Verification development for the MDX streaming hydration core
(packages/ai-jsx/src/react/jit-ui/mdx.tsx).

The development shallowly embeds the data model and the operations of the
source file:
  - the MDX AST node shape (interface Node) as the inductive ParseNode;
  - the AST walker convertAstToComponentRec as a recursive Lean function
    returning Except, where the JS null result (the dropped placeholder)
    is Option.none and thrown errors are Except.error;
  - the per-frame hydration hydrateMDX, with the rehype-plugin capture
    cell made explicit;
  - the streaming coordinator MdxChatCompletion as a function from the
    frame list and the final document to the emitted output.

The external MDX compiler is not part of this repository; it is taken as
an abstract parser parameter throughout.
-/

namespace MdxHydration

/-- The value of a JSX attribute in the MDX AST: a literal string, the JS
null (a bare attribute written without a value), or the complex marker
(an attribute value that is itself a nested expression object, detected in
the source by the check on its type field). -/
inductive AttrValue where
  | lit (s : String)
  | null
  | complex
deriving DecidableEq

/-- One JSX attribute of a component tag: a name and a value. -/
structure Attr where
  name : String
  value : AttrValue
deriving DecidableEq

/-- The two type tags of MDX JSX elements that the walker treats with one
shared branch (case mdxJsxTextElement and case mdxJsxFlowElement). -/
inductive JsxFlavor where
  | textElement
  | flowElement
deriving DecidableEq

/-- The MDX AST (interface Node of the source, whose type field is an open
string). The five handled type tags become constructors; every other type
tag is kept as the constructor other with its raw tag, so that the default
branch of the walker is reachable. -/
inductive ParseNode where
  | root (children : List ParseNode)
  | element (tagName : String) (children : List ParseNode)
  | componentTag (flavor : JsxFlavor) (name : String)
      (attributes : List Attr) (children : List ParseNode)
  | text (value : String)
  | mdxjsEsm
  | other (typeTag : String)

/-- A prop value placed into the props object by the attribute reduce:
either the literal string of the attribute or the boolean true substituted
for a bare attribute. -/
inductive PropVal where
  | str (s : String)
  | bool (b : Bool)
deriving DecidableEq

/-- The generic UI tree produced by the walker, the shape of the React
nodes the source returns: the root div, the element passthrough div (which
contains the literal text marker and the compacted children, but not the
tag name), a resolved component invocation, the span wrapping a text value
as a one-element sequence, the br line break. The JS null result is
represented outside this type, as Option.none. -/
inductive UiNode where
  | container (children : List UiNode)
  | elementDiv (children : List UiNode)
  | invocation (name : String) (props : List (String × PropVal))
      (children : List UiNode)
  | display (texts : List String)
  | lineBreak

/-- Errors thrown by the walker: the unimplemented-code-path error for a
complex attribute value, and the unhandled-AST-type error of the default
branch. -/
inductive WalkError where
  | unsupportedAttributeExpression
  | unhandledNodeKind (typeTag : String)
deriving DecidableEq

/-- JS object assignment acc[k] = v on the props accumulator: overwrite in
place when the key is present, append otherwise. -/
def insertProp (acc : List (String × PropVal)) (k : String) (v : PropVal) :
    List (String × PropVal) :=
  if acc.any (fun p => p.1 = k) then
    acc.map (fun p => if p.1 = k then (k, v) else p)
  else
    acc ++ [(k, v)]

/-- The attribute reduce of the componentTag branch: walk the attributes in
order; a value that is the complex marker throws the
unimplemented-code-path error; otherwise assign the literal string, or true
for a bare (null-valued) attribute. -/
def buildProps (acc : List (String × PropVal)) :
    List Attr → Except WalkError (List (String × PropVal))
  | [] => .ok acc
  | a :: rest =>
    match a.value with
    | .complex => .error .unsupportedAttributeExpression
    | .lit s => buildProps (insertProp acc a.name (.str s)) rest
    | .null => buildProps (insertProp acc a.name (.bool true)) rest

mutual

/-- The recursive walker convertAstToComponentRec of the source. The
registry is the list of component names known from the usage examples (the
handles are opaque); the result carries the produced node (none is the JS
null, the dropped placeholder) together with the list of diagnostics that
name a component (the logger.warn for an unresolved component). -/
def convertAstToComponentRec (components : List String) :
    ParseNode → Except WalkError (Option UiNode × List String)
  | .root cs => do
    let (rs, ds) ← walkChildren components cs
    return (some (.container (rs.filterMap id)), ds)
  | .element _tagName cs => do
    let (rs, ds) ← walkChildren components cs
    return (some (.elementDiv (rs.filterMap id)), ds)
  | .componentTag _flavor name attrs cs => do
    let props ← buildProps [] attrs
    if components.contains name then
      let (rs, ds) ← walkChildren components cs
      return (some (.invocation name props (rs.filterMap id)), ds)
    else
      return (none, [name])
  | .text v =>
    if v = "\n" then
      .ok (some .lineBreak, [])
    else
      .ok (some (.display [v]), [])
  | .mdxjsEsm => .ok (none, [])
  | .other typeTag => .error (.unhandledNodeKind typeTag)

/-- The in-order map of the walker over a list of children
(children.map convertAstToComponentRec), threading the thrown errors and
concatenating the diagnostics in document order. -/
def walkChildren (components : List String) :
    List ParseNode → Except WalkError (List (Option UiNode) × List String)
  | [] => .ok ([], [])
  | c :: cs => do
    let (r, d) ← convertAstToComponentRec components c
    let (rs, ds) ← walkChildren components cs
    return (r :: rs, d ++ ds)

end

/-- The wrapper convertAstToComponent of the source, which starts the
recursion at the root node. -/
def convertAstToComponent (components : List String) (ast : ParseNode) :
    Except WalkError (Option UiNode × List String) :=
  convertAstToComponentRec components ast

/-- An abstract parser: the external MDX compiler applied to a document
string, either producing the AST handed to the rehype plugins or throwing
with an opaque reason string. It is a parameter of every definition below
because the compiler is a library dependency, not code of this repository. -/
def Parser : Type := String → Except String ParseNode

/-- The rehype plugin of hydrateMDX: a transformer that stores the AST it
is given into the captured cell, overwriting (never reading) the previous
contents of the cell. -/
def rehypePlugin (_cell : Option ParseNode) (ast : ParseNode) :
    Option ParseNode := some ast

/-- Modelled from the spec: the external compile call of hydrateMDX (the
MDX compiler is a library dependency whose code is not in this repository;
per the spec it is a standard markup+tag grammar parser). On a successful
parse the rehype plugin runs on the resulting AST and updates the capture
cell; on a parse failure the call throws and the cell is left untouched,
but the thrown error propagates so the cell is never read. -/
def compileWithPlugin (parser : Parser) (mdx : String)
    (cell : Option ParseNode) : Except String (Option ParseNode) :=
  match parser mdx with
  | .ok ast => .ok (rehypePlugin cell ast)
  | .error e => .error e

/-- The parsability gate of hydrateMDX: declare a fresh capture cell (the
function-scoped let of the source, initially unset), run the compiler with
the capturing plugin, and return the final contents of the cell (or the
parse failure). Each call allocates its own cell; nothing survives from
one call to the next. -/
def tryParse (parser : Parser) (mdx : String) :
    Except String (Option ParseNode) :=
  compileWithPlugin parser mdx none

/-- Two sequential runs of the gate on the same string: each run declares
its own fresh cell, exactly as each call of hydrateMDX does. -/
def tryParseTwice (parser : Parser) (mdx : String) :
    Except String (Option ParseNode) × Except String (Option ParseNode) :=
  (compileWithPlugin parser mdx none, compileWithPlugin parser mdx none)

/-- Errors escaping hydrateMDX: a compiler throw, the non-null assertion
on a cell the plugin never filled (provably unreachable), or a walker
throw. -/
inductive HydrateError where
  | parseFailure (reason : String)
  | nullAssertion
  | walkFailure (w : WalkError)
deriving DecidableEq

/-- The per-frame hydration hydrateMDX of the source: parse the document
through the capture-cell gate, then run the walker twice on the captured
AST (once for the logged value, once inside the returned element). The
produced node is the result of the second walk and the component-naming
diagnostics of both walks are emitted in order. Any parse or walk failure
is rethrown. -/
def hydrateMDX (parser : Parser) (components : List String) (mdx : String) :
    Except HydrateError (Option UiNode × List String) :=
  match tryParse parser mdx with
  | .error e => .error (.parseFailure e)
  | .ok none => .error .nullAssertion
  | .ok (some ast) =>
    match convertAstToComponent components ast with
    | .error w => .error (.walkFailure w)
    | .ok (_, ds₁) =>
      match convertAstToComponent components ast with
      | .error w => .error (.walkFailure w)
      | .ok (h₂, ds₂) => .ok (h₂, ds₁ ++ ds₂)

/-- The per-frame loop of the coordinator: for each incremental frame, try
to hydrate it; on success yield the hydrated value, on any failure yield
nothing for that frame and continue (the try/catch of the source that only
yields parsable frames). -/
def streamFrames (parser : Parser) (components : List String) :
    List String → List (Option UiNode × List String)
  | [] => []
  | f :: fs =>
    match hydrateMDX parser components f with
    | .ok h => h :: streamFrames parser components fs
    | .error _ => streamFrames parser components fs

/-- The observable output of one MdxChatCompletion run: either the raw
completion (the non-hydrating early return), or the stream of successful
intermediate hydrations followed by the single terminal result (the
unconditional final hydration, whose failure propagates). -/
inductive MdxOutput where
  | raw (completion : String)
  | stream (yields : List (Option UiNode × List String))
      (terminal : Except HydrateError (Option UiNode × List String))

/-- Modelled from the spec where external: the generation source (the
rendered ChatCompletion, not code of this repository) is abstracted as the
list of incremental frames plus the final complete document. The function
body itself follows the source: without the hydrate flag, return the
completion untouched before any parsing machinery is even defined;
with the flag, loop over the frames yielding only the successful
hydrations, then hydrate the final document unconditionally as the
terminal result. -/
def MdxChatCompletion (hydrate : Bool) (parser : Parser)
    (components : List String) (frames : List String) (finalDoc : String) :
    MdxOutput :=
  if hydrate then
    .stream (streamFrames parser components frames)
      (hydrateMDX parser components finalDoc)
  else
    .raw finalDoc

/-! Helper lemmas shared by the claim theorems. -/

/-- The gate never succeeds with an unfilled cell: the non-null assertion
of hydrateMDX on the captured AST cannot fire. -/
theorem tryParse_ne_ok_none (parser : Parser) (mdx : String) :
    tryParse parser mdx ≠ .ok none := by
  unfold tryParse compileWithPlugin rehypePlugin
  cases parser mdx <;> simp

/-- Walking an appended child list: walking both halves successfully walks
the whole, with results and diagnostics concatenated in order. -/
theorem walkChildren_append (R : List String) (xs ys : List ParseNode)
    (rs₁ rs₂ : List (Option UiNode)) (ds₁ ds₂ : List String)
    (h₁ : walkChildren R xs = .ok (rs₁, ds₁))
    (h₂ : walkChildren R ys = .ok (rs₂, ds₂)) :
    walkChildren R (xs ++ ys) = .ok (rs₁ ++ rs₂, ds₁ ++ ds₂) := by
  induction xs generalizing rs₁ ds₁ with
  | nil =>
    simp only [walkChildren] at h₁
    cases h₁
    simpa using h₂
  | cons c cs ih =>
    simp only [walkChildren, bind, Except.bind, pure, Except.pure] at h₁ ⊢
    cases hc : convertAstToComponentRec R c with
    | error e => simp [hc] at h₁
    | ok rd =>
      simp only [hc] at h₁
      cases hcs : walkChildren R cs with
      | error e => simp [hcs] at h₁
      | ok rds =>
        simp only [hcs] at h₁
        cases h₁
        simp [ih rds.1 rds.2 hcs]

/-- The frame loop distributes over appended frame lists. -/
theorem streamFrames_append (parser : Parser) (R : List String)
    (xs ys : List String) :
    streamFrames parser R (xs ++ ys) =
      streamFrames parser R xs ++ streamFrames parser R ys := by
  induction xs with
  | nil => simp [streamFrames]
  | cons f fs ih =>
    simp only [List.cons_append, streamFrames]
    cases hydrateMDX parser R f <;> simp [ih]

/-- When every frame of the list fails hydration, the frame loop emits
nothing at all. -/
theorem streamFrames_nil_of_all_error (parser : Parser) (R : List String)
    (frames : List String)
    (h : ∀ f ∈ frames, ∃ e, hydrateMDX parser R f = .error e) :
    streamFrames parser R frames = [] := by
  induction frames with
  | nil => simp [streamFrames]
  | cons f fs ih =>
    obtain ⟨e, he⟩ := h f (by simp)
    simp only [streamFrames, he]
    exact ih fun g hg => h g (by simp [hg])

/-- The attribute reduce succeeds whenever no attribute value is the
complex marker. -/
theorem buildProps_ok_of_nonComplex (attrs : List Attr)
    (h : ∀ a ∈ attrs, a.value ≠ .complex) (acc : List (String × PropVal)) :
    ∃ ps, buildProps acc attrs = .ok ps := by
  induction attrs generalizing acc with
  | nil => exact ⟨acc, rfl⟩
  | cons a rest ih =>
    have ha := h a (by simp)
    have hrest : ∀ b ∈ rest, b.value ≠ AttrValue.complex :=
      fun b hb => h b (by simp [hb])
    cases hv : a.value with
    | complex => exact absurd hv ha
    | lit s => simpa [buildProps, hv] using ih hrest _
    | null => simpa [buildProps, hv] using ih hrest _

/-- The attribute reduce throws the unimplemented-code-path error as soon
as some attribute value is the complex marker. -/
theorem buildProps_error_of_complex (attrs : List Attr)
    (h : ∃ a ∈ attrs, a.value = .complex) (acc : List (String × PropVal)) :
    buildProps acc attrs = .error .unsupportedAttributeExpression := by
  induction attrs generalizing acc with
  | nil => simp at h
  | cons a rest ih =>
    cases hv : a.value with
    | complex => simp [buildProps, hv]
    | lit s =>
      obtain ⟨b, hb, hbc⟩ := h
      rcases List.mem_cons.mp hb with rfl | hb
      · exact absurd hbc (by simp [hv])
      · simp only [buildProps, hv]
        exact ih ⟨b, hb, hbc⟩ _
    | null =>
      obtain ⟨b, hb, hbc⟩ := h
      rcases List.mem_cons.mp hb with rfl | hb
      · exact absurd hbc (by simp [hv])
      · simp only [buildProps, hv]
        exact ih ⟨b, hb, hbc⟩ _

/-- The prop value the reduce assigns for a non-complex attribute value:
the literal string itself, or true for a bare attribute. On the complex
marker (excluded by the hypotheses wherever this is used) the reduce never
assigns anything. -/
def interpAttrValue : AttrValue → PropVal
  | .lit s => .str s
  | .null => .bool true
  | .complex => .bool true

/-- Assigning a fresh key appends it at the end of the props object. -/
theorem insertProp_of_notMem (acc : List (String × PropVal)) (k : String)
    (v : PropVal) (h : ∀ p ∈ acc, p.1 ≠ k) :
    insertProp acc k v = acc ++ [(k, v)] := by
  unfold insertProp
  have : acc.any (fun p => p.1 = k) = false := by
    simp only [List.any_eq_false, decide_eq_true_eq]
    exact h
  simp [this]

/-- With pairwise distinct attribute names, none complex, and no name
colliding with the accumulator, the reduce produces exactly the
accumulator followed by one entry per attribute in order. -/
theorem buildProps_eq_of_nodup (attrs : List Attr)
    (hnc : ∀ a ∈ attrs, a.value ≠ .complex)
    (hnodup : (attrs.map Attr.name).Nodup) (acc : List (String × PropVal))
    (hdisj : ∀ p ∈ acc, ∀ a ∈ attrs, p.1 ≠ a.name) :
    buildProps acc attrs =
      .ok (acc ++ attrs.map fun a => (a.name, interpAttrValue a.value)) := by
  induction attrs generalizing acc with
  | nil => simp [buildProps]
  | cons a rest ih =>
    have ha := hnc a (by simp)
    have hrest : ∀ b ∈ rest, b.value ≠ AttrValue.complex :=
      fun b hb => hnc b (by simp [hb])
    have hnodupSplit :
        (∀ x ∈ rest, ¬ x.name = a.name) ∧ (rest.map Attr.name).Nodup := by
      simpa using hnodup
    have hnodup' : (rest.map Attr.name).Nodup := hnodupSplit.2
    have hfresh : ∀ p ∈ acc, p.1 ≠ a.name :=
      fun p hp => hdisj p hp a (by simp)
    have hins : insertProp acc a.name (interpAttrValue a.value) =
        acc ++ [(a.name, interpAttrValue a.value)] :=
      insertProp_of_notMem acc a.name _ hfresh
    have hdisj' :
        ∀ p ∈ acc ++ [(a.name, interpAttrValue a.value)],
          ∀ b ∈ rest, p.1 ≠ b.name := by
      intro p hp b hb
      rcases List.mem_append.mp hp with hp | hp
      · exact hdisj p hp b (by simp [hb])
      · simp only [List.mem_singleton] at hp
        subst hp
        intro hc
        exact hnodupSplit.1 b hb (by simpa using hc.symm)
    cases hv : a.value with
    | complex => exact absurd hv ha
    | lit s =>
      have := ih hrest hnodup' (acc ++ [(a.name, interpAttrValue a.value)]) hdisj'
      simp only [buildProps, hv]
      rw [show insertProp acc a.name (.str s) =
          acc ++ [(a.name, interpAttrValue a.value)] by
        simpa [hv, interpAttrValue] using hins]
      simpa [hv, interpAttrValue] using this
    | null =>
      have := ih hrest hnodup' (acc ++ [(a.name, interpAttrValue a.value)]) hdisj'
      simp only [buildProps, hv]
      rw [show insertProp acc a.name (.bool true) =
          acc ++ [(a.name, interpAttrValue a.value)] by
        simpa [hv, interpAttrValue] using hins]
      simpa [hv, interpAttrValue] using this

/-! Claim theorems. -/

/-- C6: a Text node walks to the line break exactly when its literal value
is the single newline character; any other value, including a string that
merely contains a newline, walks to the display node wrapping the literal
value as a one-element sequence, never split into characters. -/
theorem text_newline_iff_lineBreak (R : List String) (v : String) :
    (convertAstToComponentRec R (.text v) = .ok (some .lineBreak, []) ↔
      v = "\n")
    ∧ (v ≠ "\n" →
        convertAstToComponentRec R (.text v) =
          .ok (some (.display [v]), [])) := by
  constructor
  · constructor
    · intro h
      by_contra hne
      simp [convertAstToComponentRec, hne] at h
    · intro h
      simp [convertAstToComponentRec, h]
  · intro h
    simp [convertAstToComponentRec, h]

/-- Witness for C6 at a text value that contains a newline without being
exactly the newline character. -/
theorem text_newline_iff_lineBreak_witness :
    convertAstToComponentRec [] (.text "a\nb") =
      .ok (some (.display ["a\nb"]), []) :=
  (text_newline_iff_lineBreak [] "a\nb").2 (by decide)

/-- C7: a Root node walks to a Container over the recursively walked
children in document order with the dropped (none) results filtered out of
the slots, and an Import (mdxjsEsm) node itself walks to the dropped
placeholder; a child that walks to the dropped placeholder contributes no
slot while its siblings are kept. -/
theorem root_container_filters_dropped (R : List String)
    (cs : List ParseNode) (rs : List (Option UiNode)) (ds : List String)
    (h : walkChildren R cs = .ok (rs, ds)) :
    convertAstToComponentRec R (.root cs) =
      .ok (some (.container (rs.filterMap id)), ds)
    ∧ convertAstToComponentRec R .mdxjsEsm = .ok (none, [])
    ∧ ∀ pre c post rs₁ ds₁ dc rs₂ ds₂,
        walkChildren R pre = .ok (rs₁, ds₁) →
        convertAstToComponentRec R c = .ok (none, dc) →
        walkChildren R post = .ok (rs₂, ds₂) →
        convertAstToComponentRec R (.root (pre ++ c :: post)) =
          .ok (some (.container (rs₁.filterMap id ++ rs₂.filterMap id)),
            ds₁ ++ (dc ++ ds₂)) := by
  refine ⟨by simp [convertAstToComponentRec, h, bind, Except.bind, pure,
      Except.pure],
    by simp [convertAstToComponentRec], ?_⟩
  intro pre c post rs₁ ds₁ dc rs₂ ds₂ h₁ hc h₂
  have hmid : walkChildren R (c :: post) = .ok (none :: rs₂, dc ++ ds₂) := by
    simp [walkChildren, hc, h₂, bind, Except.bind, pure, Except.pure]
  have hall := walkChildren_append R pre (c :: post) rs₁ (none :: rs₂)
    ds₁ (dc ++ ds₂) h₁ hmid
  simp [convertAstToComponentRec, hall, bind, Except.bind, pure, Except.pure]

/-- Witness for C7 on a concrete document whose middle child is an Import
node walking to the dropped placeholder. -/
theorem root_container_filters_dropped_witness :
    convertAstToComponentRec ["Badge"] (.root [.text "hi"]) =
      .ok (some (.container [.display ["hi"]]), [])
    ∧ convertAstToComponentRec ["Badge"]
        (.root ([.text "hi"] ++ .mdxjsEsm :: [.text "yo"])) =
      .ok (some (.container [.display ["hi"], .display ["yo"]]), []) := by
  have h := root_container_filters_dropped ["Badge"] [.text "hi"]
    [some (.display ["hi"])] [] rfl
  exact ⟨h.1, h.2.2 [.text "hi"] .mdxjsEsm [.text "yo"]
    [some (.display ["hi"])] [] [] [some (.display ["yo"])] [] rfl rfl rfl⟩

/-- C3 amended: an Element node walks to the generic passthrough div over
the walked, compacted children; the output does not carry the tag name
(two elements differing only in their tag walk to the same output), and
the node itself performs no registry lookup (any registry under which the
children walk the same gives the same output). -/
theorem element_passthrough (R : List String) (t t₂ : String)
    (cs : List ParseNode) (rs : List (Option UiNode)) (ds : List String)
    (h : walkChildren R cs = .ok (rs, ds)) :
    convertAstToComponentRec R (.element t cs) =
      .ok (some (.elementDiv (rs.filterMap id)), ds)
    ∧ convertAstToComponentRec R (.element t cs) =
        convertAstToComponentRec R (.element t₂ cs)
    ∧ ∀ R₂, walkChildren R₂ cs = .ok (rs, ds) →
        convertAstToComponentRec R₂ (.element t cs) =
          convertAstToComponentRec R (.element t cs) := by
  refine ⟨by simp [convertAstToComponentRec, h, bind, Except.bind, pure,
      Except.pure],
    by simp [convertAstToComponentRec, h, bind, Except.bind, pure,
      Except.pure], ?_⟩
  intro R₂ h₂
  simp [convertAstToComponentRec, h, h₂, bind, Except.bind, pure,
    Except.pure]

/-- Witness for C3 amended on a concrete element with one text child. -/
theorem element_passthrough_witness :
    convertAstToComponentRec [] (.element "h1" [.text "hi"]) =
      .ok (some (.elementDiv [.display ["hi"]]), [])
    ∧ convertAstToComponentRec [] (.element "h1" [.text "hi"]) =
        convertAstToComponentRec [] (.element "p" [.text "hi"]) := by
  have h := element_passthrough [] "h1" "p" [.text "hi"]
    [some (.display ["hi"])] [] rfl
  exact ⟨h.1, h.2.1⟩

/-- C3 counterexample: the walker output for a plain markup element does
not preserve the tag name: the h1 element and the p element walk to the
very same output value, and that value is the fixed passthrough div, which
carries no tag identity at all. -/
theorem element_tag_dropped_counterexample :
    convertAstToComponentRec [] (.element "h1" []) =
      convertAstToComponentRec [] (.element "p" [])
    ∧ convertAstToComponentRec [] (.element "h1" []) =
        .ok (some (.elementDiv []), []) :=
  ⟨rfl, rfl⟩

/-- C4: for a ComponentTag whose name the registry contains, every literal
attribute contributes the props entry mapping its name to its value, every
bare attribute contributes true, and the node walks to an Invocation with
those props over the walked, compacted children; and whenever any
attribute value is the complex nested-expression marker, the walk aborts
with the unsupported attribute expression error instead. -/
theorem componentTag_found (R : List String) (flavor : JsxFlavor)
    (name : String) (attrs : List Attr) (cs : List ParseNode) :
    ((∀ a ∈ attrs, a.value ≠ .complex) → name ∈ R →
      ∀ rs ds, walkChildren R cs = .ok (rs, ds) →
      ∃ ps, buildProps [] attrs = .ok ps
        ∧ convertAstToComponentRec R (.componentTag flavor name attrs cs) =
            .ok (some (.invocation name ps (rs.filterMap id)), ds)
        ∧ ((attrs.map Attr.name).Nodup →
            ∀ a ∈ attrs,
              (a.value = .null → (a.name, PropVal.bool true) ∈ ps)
              ∧ ∀ s, a.value = .lit s → (a.name, PropVal.str s) ∈ ps))
    ∧ ((∃ a ∈ attrs, a.value = .complex) →
        convertAstToComponentRec R (.componentTag flavor name attrs cs) =
          .error .unsupportedAttributeExpression) := by
  constructor
  · intro hnc hmem rs ds hw
    obtain ⟨ps, hps⟩ := buildProps_ok_of_nonComplex attrs hnc []
    refine ⟨ps, hps, ?_, ?_⟩
    · simp [convertAstToComponentRec, hps, hmem, hw, bind, Except.bind,
        pure, Except.pure]
    · intro hnodup a ha
      have heq := buildProps_eq_of_nodup attrs hnc hnodup [] (by simp)
      rw [hps] at heq
      have hps' : ps = attrs.map fun a => (a.name, interpAttrValue a.value) := by
        simpa using heq
      subst hps'
      refine ⟨fun hv => List.mem_map.mpr ⟨a, ha, by simp [hv, interpAttrValue]⟩,
        fun s hv => List.mem_map.mpr ⟨a, ha, by simp [hv, interpAttrValue]⟩⟩
  · intro hcx
    have hbp := buildProps_error_of_complex attrs hcx []
    simp [convertAstToComponentRec, hbp, bind, Except.bind, pure,
      Except.pure]

/-- Witness for C4 on a concrete registered component with a literal
attribute, a bare attribute, and a text child, plus a concrete component
with a complex attribute value. -/
theorem componentTag_found_witness :
    (∃ ps, buildProps [] [⟨"color", .lit "red"⟩, ⟨"open", .null⟩] = .ok ps
      ∧ convertAstToComponentRec ["Badge"]
          (.componentTag .flowElement "Badge"
            [⟨"color", .lit "red"⟩, ⟨"open", .null⟩] [.text "Hi"]) =
          .ok (some (.invocation "Badge" ps
            (List.filterMap id [some (.display ["Hi"])])), [])
      ∧ ((([⟨"color", .lit "red"⟩, ⟨"open", .null⟩] : List Attr).map
            Attr.name).Nodup →
          ∀ a ∈ ([⟨"color", .lit "red"⟩, ⟨"open", .null⟩] : List Attr),
            (a.value = .null → (a.name, PropVal.bool true) ∈ ps)
            ∧ ∀ s, a.value = .lit s → (a.name, PropVal.str s) ∈ ps))
    ∧ convertAstToComponentRec ["Badge"]
        (.componentTag .flowElement "Badge" [⟨"x", .complex⟩] []) =
        .error .unsupportedAttributeExpression := by
  constructor
  · exact (componentTag_found ["Badge"] .flowElement "Badge"
      [⟨"color", .lit "red"⟩, ⟨"open", .null⟩] [.text "Hi"]).1
      (by decide) (by simp) [some (.display ["Hi"])] [] rfl
  · exact (componentTag_found ["Badge"] .flowElement "Badge"
      [⟨"x", .complex⟩] []).2 ⟨⟨"x", .complex⟩, by simp, rfl⟩

/-- C5 amended: a ComponentTag whose name the registry does not contain
and whose attribute values are all non-complex walks to the dropped
placeholder with exactly one diagnostic naming the component, without its
subtree contributing anything; inside a root document the sibling slots
and sibling diagnostics are unaffected and the frame walk succeeds
whenever the siblings walk successfully. -/
theorem unknown_component_pruned (R : List String) (flavor : JsxFlavor)
    (name : String) (attrs : List Attr) (cs : List ParseNode)
    (hmiss : name ∉ R) (hnc : ∀ a ∈ attrs, a.value ≠ .complex) :
    convertAstToComponentRec R (.componentTag flavor name attrs cs) =
      .ok (none, [name])
    ∧ ∀ pre post rs₁ ds₁ rs₂ ds₂,
        walkChildren R pre = .ok (rs₁, ds₁) →
        walkChildren R post = .ok (rs₂, ds₂) →
        convertAstToComponentRec R
            (.root (pre ++ .componentTag flavor name attrs cs :: post)) =
          .ok (some (.container (rs₁.filterMap id ++ rs₂.filterMap id)),
            ds₁ ++ (name :: ds₂)) := by
  obtain ⟨ps, hps⟩ := buildProps_ok_of_nonComplex attrs hnc []
  have hdrop : convertAstToComponentRec R
      (.componentTag flavor name attrs cs) = .ok (none, [name]) := by
    simp [convertAstToComponentRec, hps, hmiss, bind, Except.bind, pure,
      Except.pure]
  refine ⟨hdrop, ?_⟩
  intro pre post rs₁ ds₁ rs₂ ds₂ h₁ h₂
  have hmid : walkChildren R
      (.componentTag flavor name attrs cs :: post) =
      .ok (none :: rs₂, [name] ++ ds₂) := by
    simp [walkChildren, hdrop, h₂, bind, Except.bind, pure, Except.pure]
  have hall := walkChildren_append R pre _ rs₁ (none :: rs₂) ds₁
    ([name] ++ ds₂) h₁ hmid
  simp [convertAstToComponentRec, hall, bind, Except.bind, pure,
    Except.pure]

/-- Witness for C5 amended: an unknown component with a literal attribute
inside a document with one text sibling is pruned with exactly one
diagnostic and the sibling is kept. -/
theorem unknown_component_pruned_witness :
    convertAstToComponentRec []
        (.componentTag .flowElement "Unknown" [⟨"foo", .lit "1"⟩] []) =
      .ok (none, ["Unknown"])
    ∧ convertAstToComponentRec []
        (.root [.text "sib",
          .componentTag .flowElement "Unknown" [⟨"foo", .lit "1"⟩] []]) =
      .ok (some (.container [.display ["sib"]]), ["Unknown"]) := by
  have h := unknown_component_pruned [] .flowElement "Unknown"
    [⟨"foo", .lit "1"⟩] [] (by simp) (by decide)
  exact ⟨h.1, h.2 [.text "sib"] [] [some (.display ["sib"])] [] [] []
    rfl rfl⟩

/-- C5 counterexample: a document whose only content is a component tag
that is absent from the registry but carries a complex attribute value
makes the whole frame walk fail with the unsupported attribute expression
error, instead of pruning the node to a dropped placeholder with one
diagnostic: the attribute reduce runs before the registry lookup. -/
theorem unknown_component_pruned_counterexample :
    convertAstToComponentRec []
        (.root [.componentTag .flowElement "Unknown" [⟨"foo", .complex⟩] []]) =
      .error .unsupportedAttributeExpression :=
  rfl

/-- C1: with the hydrate flag set, the output stream carries exactly one
terminal result, obtained by hydrating (parsing and walking) the final
complete document; the terminal result is present even when every
intermediate frame failed hydration (the yields are then empty), and a
failing final hydration propagates as the terminal error instead of being
swallowed. -/
theorem terminal_always_from_final (parser : Parser) (R : List String)
    (frames : List String) (finalDoc : String) :
    MdxChatCompletion true parser R frames finalDoc =
      .stream (streamFrames parser R frames) (hydrateMDX parser R finalDoc)
    ∧ ((∀ f ∈ frames, ∃ e, hydrateMDX parser R f = .error e) →
        MdxChatCompletion true parser R frames finalDoc =
          .stream [] (hydrateMDX parser R finalDoc))
    ∧ ∀ e, hydrateMDX parser R finalDoc = .error e →
        MdxChatCompletion true parser R frames finalDoc =
          .stream (streamFrames parser R frames) (.error e) := by
  refine ⟨rfl, ?_, ?_⟩
  · intro h
    simp [MdxChatCompletion, streamFrames_nil_of_all_error parser R frames h]
  · intro e he
    simp [MdxChatCompletion, he]

/-- A concrete parser that rejects the lone intermediate fragment and
accepts the complete document, exercising the terminal guarantee of C1. -/
def parserC1 : Parser := fun s =>
  if s = "frag" then .error "unexpected end of file" else .ok (.root [])

/-- Witness for C1: with every intermediate frame unparsable, the stream
still ends in the terminal hydration of the final document. -/
theorem terminal_always_from_final_witness :
    MdxChatCompletion true parserC1 [] ["frag"] "full" =
      .stream [] (hydrateMDX parserC1 [] "full") :=
  (terminal_always_from_final parserC1 [] ["frag"] "full").2.1
    (by
      intro f hf
      refine ⟨.parseFailure "unexpected end of file", ?_⟩
      simp only [List.mem_singleton] at hf
      subst hf
      rfl)

/-- C2: a non-final frame whose hydration fails contributes nothing to the
stream: the yields over the surrounding frames are exactly the yields with
the failing frame removed, so the last successful hydration before it
stays the most recent value observed until a later frame succeeds, and the
failure never reaches the consumer. -/
theorem failing_frame_swallowed (parser : Parser) (R : List String)
    (pre post : List String) (f finalDoc : String) (e : HydrateError)
    (hf : hydrateMDX parser R f = .error e) :
    streamFrames parser R (pre ++ f :: post) =
      streamFrames parser R pre ++ streamFrames parser R post
    ∧ streamFrames parser R (pre ++ [f]) = streamFrames parser R pre
    ∧ MdxChatCompletion true parser R (pre ++ f :: post) finalDoc =
        .stream (streamFrames parser R pre ++ streamFrames parser R post)
          (hydrateMDX parser R finalDoc) := by
  have hcons : streamFrames parser R (f :: post) =
      streamFrames parser R post := by
    simp [streamFrames, hf]
  have hsplit := streamFrames_append parser R pre (f :: post)
  have hone : streamFrames parser R [f] = [] := by
    simp [streamFrames, hf]
  refine ⟨by rw [hsplit, hcons], ?_, ?_⟩
  · rw [streamFrames_append, hone, List.append_nil]
  · simp [MdxChatCompletion, hsplit, hcons]

/-- A concrete parser that rejects exactly the middle frame, used to
exercise the swallow policy of C2. -/
def parserC2 : Parser := fun s =>
  if s = "bad" then .error "grammar rejection" else .ok (.root [.text "ok"])

/-- Witness for C2: the failing middle frame is dropped from the yields
while the successful frames around it are kept in order. -/
theorem failing_frame_swallowed_witness :
    streamFrames parserC2 [] (["good"] ++ "bad" :: ["better"]) =
      streamFrames parserC2 [] ["good"] ++ streamFrames parserC2 [] ["better"]
    ∧ streamFrames parserC2 [] (["good"] ++ ["bad"]) =
        streamFrames parserC2 [] ["good"] :=
  ⟨(failing_frame_swallowed parserC2 [] ["good"] ["better"] "bad" "fin"
      (.parseFailure "grammar rejection") rfl).1,
    (failing_frame_swallowed parserC2 [] ["good"] ["better"] "bad" "fin"
      (.parseFailure "grammar rejection") rfl).2.1⟩

/-- C8: the parsability gate is deterministic and repeatable: two
sequential calls on the same string yield structurally identical results,
each call starting from its own freshly initialized capture cell; and the
compile step is insensitive to any pre-existing cell contents, because the
rehype plugin only ever overwrites the cell, so no memoized state can
influence a second run. -/
theorem tryParse_deterministic (parser : Parser) (s : String) :
    tryParseTwice parser s = (tryParse parser s, tryParse parser s)
    ∧ (tryParseTwice parser s).1 = (tryParseTwice parser s).2
    ∧ ∀ cell₁ cell₂ : Option ParseNode,
        compileWithPlugin parser s cell₁ = compileWithPlugin parser s cell₂ := by
  refine ⟨rfl, rfl, ?_⟩
  intro c₁ c₂
  unfold compileWithPlugin rehypePlugin
  cases parser s <;> rfl

/-- C9 amended: an AST node whose variant lies outside the handled set
makes the walk fail with the unhandled node kind error; when this happens
on the final document the error propagates to the caller as the terminal
result, but on a non-final frame the coordinator swallows it like any
other hydration failure and emits nothing for that frame. -/
theorem unhandled_kind_surfaced_only_on_final (R : List String)
    (t : String) (parser : Parser) (frames pre post : List String)
    (f finalDoc : String)
    (_ht : t ∉ ["root", "element", "mdxJsxTextElement", "mdxJsxFlowElement",
      "text", "mdxjsEsm"]) :
    convertAstToComponentRec R (.other t) = .error (.unhandledNodeKind t)
    ∧ (hydrateMDX parser R finalDoc =
          .error (.walkFailure (.unhandledNodeKind t)) →
        MdxChatCompletion true parser R frames finalDoc =
          .stream (streamFrames parser R frames)
            (.error (.walkFailure (.unhandledNodeKind t))))
    ∧ (hydrateMDX parser R f =
          .error (.walkFailure (.unhandledNodeKind t)) →
        streamFrames parser R (pre ++ f :: post) =
          streamFrames parser R pre ++ streamFrames parser R post) := by
  refine ⟨by simp [convertAstToComponentRec], ?_, ?_⟩
  · intro he
    simp [MdxChatCompletion, he]
  · intro he
    have hcons : streamFrames parser R (f :: post) =
        streamFrames parser R post := by
      simp [streamFrames, he]
    rw [streamFrames_append parser R pre (f :: post), hcons]

/-- A concrete parser producing an AST variant outside the handled set for
exactly one frame string, used for C9. -/
def parserC9 : Parser := fun s =>
  if s = "frameX" then .ok (.other "mdxFlowExpression")
  else .ok (.root [])

/-- Witness for C9 amended: the unhandled variant error is the terminal
result when it arises on the final document, and a frame carrying it
contributes nothing to the yields. -/
theorem unhandled_kind_surfaced_only_on_final_witness :
    MdxChatCompletion true parserC9 [] [] "frameX" =
      .stream []
        (.error (.walkFailure (.unhandledNodeKind "mdxFlowExpression")))
    ∧ streamFrames parserC9 [] ([] ++ "frameX" :: []) =
        streamFrames parserC9 [] [] ++ streamFrames parserC9 [] [] := by
  have h := unhandled_kind_surfaced_only_on_final [] "mdxFlowExpression"
    parserC9 [] [] [] "frameX" "frameX" (by decide)
  exact ⟨h.2.1 rfl, h.2.2 rfl⟩

/-- C9 counterexample: on a non-final frame whose AST contains a variant
outside the handled set, hydration throws the unhandled node kind error,
yet the coordinator swallows it: nothing is yielded for that frame, no
error reaches the consumer, and the stream proceeds to a successful
terminal result, contradicting that the error is always surfaced
immediately on every frame. -/
theorem unhandled_kind_swallowed_counterexample :
    hydrateMDX parserC9 [] "frameX" =
      .error (.walkFailure (.unhandledNodeKind "mdxFlowExpression"))
    ∧ MdxChatCompletion true parserC9 [] ["frameX"] "done" =
        .stream [] (.ok (some (.container []), [])) :=
  ⟨rfl, rfl⟩

/-- C10: with the hydrate flag absent or false, MdxChatCompletion returns
the raw completion text; the result is independent of the parser, of the
registry, and of the incremental frame sequence, so no parsing, walking,
registry lookup, or per-frame filtering can influence this path. -/
theorem no_hydrate_returns_raw (parser₁ parser₂ : Parser)
    (R₁ R₂ : List String) (frames₁ frames₂ : List String)
    (finalDoc : String) :
    MdxChatCompletion false parser₁ R₁ frames₁ finalDoc = .raw finalDoc
    ∧ MdxChatCompletion false parser₁ R₁ frames₁ finalDoc =
        MdxChatCompletion false parser₂ R₂ frames₂ finalDoc :=
  ⟨rfl, rfl⟩

end MdxHydration
